import Mathlib

/-!
Verification of the n-gram language-guesser core (`lang_guess.py`).

The program builds character n-gram frequency models from whitespace-split
terms and compares models with cosine similarity.  We embed the core
functions shallowly:

* a Python dict mapping n-grams to counts becomes an association list
  `Model := List (Ngram × Nat)`; a genuine dict has pairwise-distinct keys,
  which appears as a `(keys m).Nodup` hypothesis where a proof needs it;
* file contents are represented post-tokenization, as the list of terms the
  Python `read().split()` produces (tokenization is external to the core);
* the filesystem seen by `createModel` is an abstract `FileSystem` record;
* Python floats are modelled as real numbers; the division
  `num / (sqrt(denom1) * sqrt(denom2))` raises `ZeroDivisionError` exactly
  when the denominator is zero, i.e. when `denom1 = 0` or `denom2 = 0`,
  which the embedding returns as `Except.error PyError.zeroDivisionError`.
-/

namespace LangGuess

/-- An n-gram is a string, modelled as a list of characters. -/
abbrev Ngram := List Char

/-- A frequency model: Python dict from n-gram to count, as an association
list in insertion order. -/
abbrev Model := List (Ngram × Nat)

/-- `SEP = '#'`, the sentinel separator character. -/
def SEP : Char := '#'

/-- `getNGrams(term, n)` from `lang_guess.py`:
empty term gives `[]` (with a logged warning, not modelled);
a term shorter than `n` gives the two padded n-grams
`[numSEP * SEP + term, term + numSEP * SEP]`;
otherwise for `n > 1` the term is bordered with one `SEP` on each side and
a sliding window of width `n` (Python `term[idx:idx+n]`) runs over it.
In the window branch `term.length ≥ n`, so the `Nat` subtraction in the
range bound is exact, as in Python. -/
def getNGrams (term : List Char) (n : Nat) : List Ngram :=
  if term = [] then
    []
  else if term.length < n then
    [List.replicate (n - term.length) SEP ++ term,
     term ++ List.replicate (n - term.length) SEP]
  else
    let padded := if 1 < n then SEP :: term ++ [SEP] else term
    (List.range (padded.length - n + 1)).map (fun idx => (padded.drop idx).take n)

/-- Python `model.get(g, 0)`: the count stored for key `g`, `0` if absent. -/
def dictGet : Model → Ngram → Nat
  | [], _ => 0
  | p :: rest, g => if p.1 = g then p.2 else dictGet rest g

/-- Python `g in model` (key membership). -/
def containsKey : Model → Ngram → Bool
  | [], _ => false
  | p :: rest, g => if p.1 = g then true else containsKey rest g

/-- The key list of a model (Python dict key iteration order). -/
def keys (m : Model) : List Ngram :=
  m.map Prod.fst

/-- Python `model[g] = v`: update in place when the key exists (a dict keeps
the key's position), append otherwise (a dict appends new keys). -/
def dictSet (m : Model) (g : Ngram) (v : Nat) : Model :=
  if containsKey m g then
    m.map (fun p => if p.1 = g then (g, v) else p)
  else
    m ++ [(g, v)]

/-- `getModelFromFile(fn, n)`: the n-gram model of one file.  The file is
represented post-tokenization, as the list of terms `read().split()` yields;
the nested loops run `nGrams[nGram] = nGrams.get(nGram, 0) + 1` once per
n-gram occurrence. -/
def getModelFromFile (terms : List (List Char)) (n : Nat) : Model :=
  terms.foldl
    (fun nGrams term =>
      (getNGrams term n).foldl (fun acc g => dictSet acc g (dictGet acc g + 1)) nGrams)
    []

/-- The aggregation step of `createModel`'s directory branch: for each
`(nGram, freq)` item of a per-file model,
`model[nGram] = model.get(nGram, 0) + freq`.  Iterating a dict yields each
key once with its stored value, so the entry's second component is the
looked-up frequency. -/
def mergeModel (model perFile : Model) : Model :=
  perFile.foldl (fun acc p => dictSet acc p.1 (dictGet acc p.1 + p.2)) model

/-- The errors the embedded code can signal.  The source raises Python's
built-in `ZeroDivisionError` (integer-over-float division by `0.0`) and can
propagate `IOError` (missing/unreadable file, here `resourceError`) and
`UnicodeDecodeError` (here `encodingError`) out of `codecs.open`.
`degenerateModelError` is the error the spec's edge-case policy names; no
code path produces it — the constructor exists only so the spec's
error-policy claims can be stated. -/
inductive PyError where
  | zeroDivisionError
  | resourceError
  | encodingError
  | degenerateModelError
  deriving DecidableEq, Repr

/-- The filesystem as `createModel`/`computeSimilarities` observe it:
`os.path.isdir`, `os.path.isfile`, the files produced by `os.walk` (full
paths, in walk order), and reading a file as its whitespace-split term list
(which may fail with a resource or encoding error). -/
structure FileSystem where
  isDir : String → Bool
  isFile : String → Bool
  walkFiles : String → List String
  readTerms : String → Except PyError (List (List Char))

/-- The `'_prep.txt'` suffix filter applied to walked file names. -/
def endsWithPrep (fn : String) : Bool :=
  fn.endsWith "_prep.txt"

/-- `createModel(lang, src, n)`: directory sources fold every qualifying
file's model into the aggregate; single files delegate to
`getModelFromFile`; a `src` that is neither a directory nor a file falls
through both branches and the initial `model = { }` is returned.  The
optional top-500 persistence (`writeToDisc`) is an output side effect with
no bearing on the returned model and is not modelled; the logging calls
are likewise omitted. -/
def createModel (fs : FileSystem) (src : String) (n : Nat) : Except PyError Model :=
  if fs.isDir src then
    ((fs.walkFiles src).filter endsWithPrep).foldlM
      (fun model fn => do
        let terms ← fs.readTerms fn
        pure (mergeModel model (getModelFromFile terms n)))
      []
  else if fs.isFile src then do
    let terms ← fs.readTerms src
    pure (getModelFromFile terms n)
  else
    pure ([] : Model)

/-- First loop of `getCosSim`: `num += model1[term1] * model2.get(term1, 0)`
summed over `model1`'s items. -/
def getCosSimNum (model1 model2 : Model) : Nat :=
  (model1.map (fun p => p.2 * dictGet model2 p.1)).sum

/-- First loop of `getCosSim`: `denom1 += model1[term1] * model1[term1]`. -/
def getCosSimDenom1 (model1 : Model) : Nat :=
  (model1.map (fun p => p.2 * p.2)).sum

/-- Both `denom2` contributions of `getCosSim`: `term2Freq * term2Freq` over
`model1`'s keys in the first loop, then `model2[term2] * model2[term2]` over
`set(model2.iterkeys()) - set(model1.iterkeys())` in the second loop (for a
dict, the entries whose key is not a key of `model1`). -/
def getCosSimDenom2 (model1 model2 : Model) : Nat :=
  (model1.map (fun p => dictGet model2 p.1 * dictGet model2 p.1)).sum +
    ((model2.filter (fun p => !containsKey model1 p.1)).map (fun p => p.2 * p.2)).sum

/-- `getCosSim(model1, model2) = num / (sqrt(denom1) * sqrt(denom2))`.  The
counts are exact non-negative integers, so the float denominator is `0.0`
exactly when `denom1 = 0` or `denom2 = 0`; Python then raises an uncaught
`ZeroDivisionError`, which the embedding returns as an error value. -/
noncomputable def getCosSim (model1 model2 : Model) : Except PyError ℝ :=
  if getCosSimDenom1 model1 = 0 ∨ getCosSimDenom2 model1 model2 = 0 then
    Except.error PyError.zeroDivisionError
  else
    Except.ok ((getCosSimNum model1 model2 : ℝ) /
      (Real.sqrt (getCosSimDenom1 model1) * Real.sqrt (getCosSimDenom2 model1 model2)))

/-- The candidate-model update in `computeSimilarities`' file loop:
`for nGram in getModelFromFile(fn, n)` iterates the per-file model's KEYS,
and each key runs `model[nGram] = model.get(nGram, 0) + 1` — one increment
per distinct n-gram of the file, regardless of its occurrence count. -/
def dfAdd (model : Model) (terms : List (List Char)) (n : Nat) : Model :=
  (keys (getModelFromFile terms n)).foldl
    (fun acc g => dictSet acc g (dictGet acc g + 1)) model

/-- One iteration of `computeSimilarities`' file loop: update the running
candidate model (`dfAdd`) and write one `path TAB score` line, modelled by
appending to the emitted list. -/
noncomputable def simStep (ref : Model) (n : Nat)
    (st : Model × List (String × ℝ)) (f : String × List (List Char)) :
    Except PyError (Model × List (String × ℝ)) := do
  let model := dfAdd st.1 f.2 n
  let s ← getCosSim ref model
  pure (model, st.2 ++ [(f.1, s)])

/-- The directory branch of `computeSimilarities(lang, model, src, n)`:
`ref` is the reference model parsed from the model listing, `files` are the
qualifying `_prep.txt` files in walk order, each given with its tokenized
contents.  The loop starts from the empty candidate model and the empty
output file; an exception raised by `getCosSim` aborts the run uncaught. -/
noncomputable def computeSimilarities (ref : Model)
    (files : List (String × List (List Char))) (n : Nat) :
    Except PyError (List (String × ℝ)) :=
  (files.foldlM (simStep ref n)
    (([] : Model), ([] : List (String × ℝ)))).map Prod.snd

/-- The cumulative candidate model `computeSimilarities` holds after
processing a list of files. -/
def cumDFModel (files : List (String × List (List Char))) (n : Nat) : Model :=
  files.foldl (fun model f => dfAdd model f.2 n) []

/-- Modelled from the spec: the aggregate model `createModel`'s
"per-file counting and count-summing merge" would produce over a list of
files — the model claim C2's wording identifies the cumulative candidate
model with. -/
def builderAggregate (files : List (String × List (List Char))) (n : Nat) : Model :=
  files.foldl (fun model f => mergeModel model (getModelFromFile f.2 n)) []

/-- Two models are the same mapping (Python `dict` equality): the same keys
and the same count on every n-gram. -/
def ModelEquiv (a b : Model) : Prop :=
  (∀ g, containsKey a g = containsKey b g) ∧ (∀ g, dictGet a g = dictGet b g)

/-- The key set of a model, as a finset. -/
def keysFinset (m : Model) : Finset Ngram :=
  (keys m).toFinset

/-- Modelled from the spec: the scorer numerator, "sum over n-grams present
in `modelA` of `countA * countB` (with `countB = 0` when absent)". -/
def specNum (a b : Model) : Nat :=
  ∑ g ∈ keysFinset a, dictGet a g * dictGet b g

/-- Modelled from the spec: "sum of countA^2 over modelA's keys". -/
def specDenom1 (a : Model) : Nat :=
  ∑ g ∈ keysFinset a, dictGet a g * dictGet a g

/-- Modelled from the spec: "sum of countB^2 over the union of both models'
keys". -/
def specDenom2 (a b : Model) : Nat :=
  ∑ g ∈ keysFinset a ∪ keysFinset b, dictGet b g * dictGet b g

/-- A filesystem on which every path is missing: nothing is a directory,
nothing is a file, and every read fails. -/
def emptyFS : FileSystem where
  isDir := fun _ => false
  isFile := fun _ => false
  walkFiles := fun _ => []
  readTerms := fun _ => Except.error PyError.resourceError

@[simp] theorem dictGet_nil (g : Ngram) : dictGet [] g = 0 := rfl

@[simp] theorem containsKey_nil (g : Ngram) : containsKey [] g = false := rfl

@[simp] theorem keys_nil : keys [] = [] := rfl

theorem dictGet_cons (p : Ngram × Nat) (rest : Model) (g : Ngram) :
    dictGet (p :: rest) g = if p.1 = g then p.2 else dictGet rest g := rfl

theorem containsKey_cons (p : Ngram × Nat) (rest : Model) (g : Ngram) :
    containsKey (p :: rest) g = if p.1 = g then true else containsKey rest g := rfl

theorem dictGet_append (m1 m2 : Model) (g : Ngram) :
    dictGet (m1 ++ m2) g = if containsKey m1 g then dictGet m1 g else dictGet m2 g := by
  induction m1 with
  | nil => simp [dictGet, containsKey]
  | cons p rest ih =>
    by_cases h : p.1 = g
    · simp [dictGet, containsKey, h]
    · simp [dictGet, containsKey, h, ih]

theorem containsKey_append (m1 m2 : Model) (g : Ngram) :
    containsKey (m1 ++ m2) g = (containsKey m1 g || containsKey m2 g) := by
  induction m1 with
  | nil => simp [containsKey]
  | cons p rest ih =>
    by_cases h : p.1 = g
    · simp [containsKey, h]
    · simp [containsKey, h, ih]

theorem dictGet_eq_zero_of_not_containsKey (m : Model) (g : Ngram)
    (h : containsKey m g = false) : dictGet m g = 0 := by
  induction m with
  | nil => rfl
  | cons p rest ih =>
    by_cases hp : p.1 = g
    · simp [containsKey, hp] at h
    · rw [dictGet_cons, if_neg hp]
      exact ih (by simpa [containsKey, hp] using h)

theorem keys_map_upd (m : Model) (g : Ngram) (v : Nat) :
    keys (m.map (fun p => if p.1 = g then (g, v) else p)) = keys m := by
  induction m with
  | nil => rfl
  | cons p rest ih =>
    simp only [keys, List.map_cons] at ih ⊢
    rw [ih]
    by_cases hp : p.1 = g
    · rw [if_pos hp, hp]
    · rw [if_neg hp]

theorem containsKey_iff_mem (m : Model) (g : Ngram) :
    containsKey m g = true ↔ g ∈ keys m := by
  induction m with
  | nil => simp [containsKey, keys]
  | cons p rest ih =>
    by_cases hp : p.1 = g
    · simp [containsKey_cons, keys, hp]
    · rw [containsKey_cons, if_neg hp, ih]
      simp only [keys, List.map_cons, List.mem_cons]
      constructor
      · exact fun h => Or.inr h
      · rintro (h | h)
        · exact absurd h.symm hp
        · exact h

theorem containsKey_map_upd (m : Model) (g : Ngram) (v : Nat) (g' : Ngram) :
    containsKey (m.map (fun p => if p.1 = g then (g, v) else p)) g' = containsKey m g' := by
  induction m with
  | nil => rfl
  | cons p rest ih =>
    simp only [List.map_cons, containsKey_cons, ih]
    by_cases hp : p.1 = g
    · rw [if_pos hp]
      show (if g = g' then true else containsKey rest g') =
        if p.1 = g' then true else containsKey rest g'
      rw [hp]
    · rw [if_neg hp]

theorem dictGet_map_upd_self (m : Model) (g : Ngram) (v : Nat)
    (hc : containsKey m g = true) :
    dictGet (m.map (fun p => if p.1 = g then (g, v) else p)) g = v := by
  induction m with
  | nil => simp [containsKey] at hc
  | cons p rest ih =>
    by_cases hp : p.1 = g
    · simp [dictGet, hp]
    · rw [containsKey_cons, if_neg hp] at hc
      simp only [List.map_cons, if_neg hp, dictGet_cons, if_neg hp]
      exact ih hc

theorem dictGet_map_upd_ne (m : Model) (g : Ngram) (v : Nat) (g' : Ngram)
    (hne : g ≠ g') :
    dictGet (m.map (fun p => if p.1 = g then (g, v) else p)) g' = dictGet m g' := by
  induction m with
  | nil => rfl
  | cons p rest ih =>
    by_cases hp : p.1 = g
    · have hp' : ¬ p.1 = g' := by rw [hp]; exact hne
      simp only [List.map_cons, if_pos hp, dictGet_cons, if_neg hne, if_neg hp', ih]
    · simp only [List.map_cons, if_neg hp, dictGet_cons, ih]

theorem dictGet_dictSet (m : Model) (g : Ngram) (v : Nat) (g' : Ngram) :
    dictGet (dictSet m g v) g' = if g = g' then v else dictGet m g' := by
  unfold dictSet
  by_cases hc : containsKey m g
  · rw [if_pos hc]
    by_cases hg : g = g'
    · subst hg
      rw [if_pos rfl]
      exact dictGet_map_upd_self m g v hc
    · rw [if_neg hg]
      exact dictGet_map_upd_ne m g v g' hg
  · rw [if_neg hc, dictGet_append]
    by_cases hg : g = g'
    · subst hg
      rw [if_neg (by simpa using hc), if_pos rfl]
      simp [dictGet]
    · have h0 : dictGet [(g, v)] g' = 0 := by simp [dictGet, hg]
      rw [if_neg hg, h0]
      by_cases hc' : containsKey m g'
      · rw [if_pos hc']
      · rw [if_neg hc', dictGet_eq_zero_of_not_containsKey m g' (by simpa using hc')]

theorem containsKey_dictSet (m : Model) (g : Ngram) (v : Nat) (g' : Ngram) :
    containsKey (dictSet m g v) g' = if g = g' then true else containsKey m g' := by
  unfold dictSet
  by_cases hc : containsKey m g
  · rw [if_pos hc, containsKey_map_upd]
    by_cases hg : g = g'
    · subst hg
      rw [if_pos rfl, hc]
    · rw [if_neg hg]
  · rw [if_neg hc, containsKey_append]
    by_cases hg : g = g'
    · subst hg
      simp [containsKey]
    · simp [containsKey, hg]

theorem keys_dictSet (m : Model) (g : Ngram) (v : Nat) :
    keys (dictSet m g v) = if containsKey m g then keys m else keys m ++ [g] := by
  unfold dictSet
  by_cases hc : containsKey m g
  · rw [if_pos hc, if_pos hc, keys_map_upd]
  · rw [if_neg hc, if_neg hc]
    simp [keys]

theorem nodup_keys_dictSet (m : Model) (g : Ngram) (v : Nat)
    (h : (keys m).Nodup) : (keys (dictSet m g v)).Nodup := by
  rw [keys_dictSet]
  by_cases hc : containsKey m g
  · rwa [if_pos hc]
  · rw [if_neg hc]
    have hg : g ∉ keys m := fun hmem => by
      rw [(containsKey_iff_mem m g).mpr hmem] at hc
      exact hc rfl
    simp [List.nodup_append, h, hg]

/-- Claim C6: for a term of length at least `n ≥ 1`, `getNGrams` produces
exactly `len(term) + 2*(n>1) - n + 1` n-grams: `len(term) - n + 3` when
`n > 1` and `len(term)` when `n = 1`. -/
theorem c6_getNGrams_count (term : List Char) (n : Nat)
    (h1 : 1 ≤ n) (h2 : n ≤ term.length) :
    (getNGrams term n).length = term.length + (if 1 < n then 2 else 0) - n + 1 ∧
    (1 < n → (getNGrams term n).length = term.length - n + 3) ∧
    (n = 1 → (getNGrams term n).length = term.length) := by
  have hne : term ≠ [] := by
    intro h
    rw [h] at h2
    simp only [List.length_nil, Nat.le_zero] at h2
    omega
  have hnlt : ¬ term.length < n := not_lt.mpr h2
  by_cases hn : 1 < n
  · have hlen : (getNGrams term n).length = term.length + 2 - n + 1 := by
      simp only [getNGrams, if_neg hne, if_neg hnlt, if_pos hn]
      simp [List.length_append]
    refine ⟨?_, fun _ => ?_, fun h1eq => ?_⟩
    · rw [hlen, if_pos hn]
    · rw [hlen]; omega
    · omega
  · have hn1 : n = 1 := by omega
    have hlen : (getNGrams term n).length = term.length - n + 1 := by
      simp only [getNGrams, if_neg hne, if_neg hnlt, if_neg hn]
      simp
    refine ⟨?_, fun h => absurd h hn, fun _ => ?_⟩
    · rw [hlen, if_neg hn]
      omega
    · rw [hlen]
      omega

/-- Witness for C6 at `term = "cat"`, `n = 2`. -/
theorem c6_getNGrams_count_witness :
    (getNGrams ['c', 'a', 't'] 2).length =
      (['c', 'a', 't'] : List Char).length + (if 1 < 2 then 2 else 0) - 2 + 1 ∧
    (1 < 2 → (getNGrams ['c', 'a', 't'] 2).length =
      (['c', 'a', 't'] : List Char).length - 2 + 3) ∧
    (2 = 1 → (getNGrams ['c', 'a', 't'] 2).length =
      (['c', 'a', 't'] : List Char).length) :=
  c6_getNGrams_count ['c', 'a', 't'] 2 (by decide) (by decide)

/-- Claim C7: for a non-empty term shorter than `n`, `getNGrams` produces
exactly the two padded n-grams, left-padded then right-padded, each of
length exactly `n`. -/
theorem c7_getNGrams_short (term : List Char) (n : Nat)
    (h1 : term ≠ []) (h2 : term.length < n) :
    getNGrams term n =
      [List.replicate (n - term.length) SEP ++ term,
       term ++ List.replicate (n - term.length) SEP] ∧
    ∀ g ∈ getNGrams term n, g.length = n := by
  have hres : getNGrams term n =
      [List.replicate (n - term.length) SEP ++ term,
       term ++ List.replicate (n - term.length) SEP] := by
    simp only [getNGrams, if_neg h1, if_pos h2]
  refine ⟨hres, ?_⟩
  intro g hg
  rw [hres] at hg
  simp only [List.mem_cons, List.not_mem_nil, or_false] at hg
  rcases hg with hg | hg <;> subst hg <;> simp [List.length_append] <;> omega

/-- Witness for C7 at `term = "a"`, `n = 2`. -/
theorem c7_getNGrams_short_witness :
    getNGrams ['a'] 2 =
      [List.replicate (2 - (['a'] : List Char).length) SEP ++ ['a'],
       ['a'] ++ List.replicate (2 - (['a'] : List Char).length) SEP] ∧
    ∀ g ∈ getNGrams ['a'] 2, g.length = 2 :=
  c7_getNGrams_short ['a'] 2 (by decide) (by decide)

theorem dictGet_foldl_incr (L : List Ngram) (m : Model) (g : Ngram) :
    dictGet (L.foldl (fun acc x => dictSet acc x (dictGet acc x + 1)) m) g =
      dictGet m g + L.count g := by
  induction L generalizing m with
  | nil => simp
  | cons x rest ih =>
    rw [List.foldl_cons, ih, dictGet_dictSet]
    by_cases hx : x = g
    · subst hx
      simp [List.count_cons]
      omega
    · simp [List.count_cons, hx]

theorem containsKey_foldl_incr (L : List Ngram) (m : Model) (g : Ngram) :
    containsKey (L.foldl (fun acc x => dictSet acc x (dictGet acc x + 1)) m) g =
      (containsKey m g || decide (g ∈ L)) := by
  induction L generalizing m with
  | nil => simp
  | cons x rest ih =>
    rw [List.foldl_cons, ih, containsKey_dictSet]
    by_cases hx : x = g
    · subst hx
      simp
    · have hx' : ¬ g = x := fun h => hx h.symm
      simp [hx, hx']

theorem nodup_keys_foldl_incr (L : List Ngram) (m : Model)
    (h : (keys m).Nodup) :
    (keys (L.foldl (fun acc x => dictSet acc x (dictGet acc x + 1)) m)).Nodup := by
  induction L generalizing m with
  | nil => exact h
  | cons x rest ih => exact ih _ (nodup_keys_dictSet _ _ _ h)

theorem dictGet_foldl_merge (b : Model) (a : Model) (g : Ngram)
    (hb : (keys b).Nodup) :
    dictGet (b.foldl (fun acc p => dictSet acc p.1 (dictGet acc p.1 + p.2)) a) g =
      dictGet a g + dictGet b g := by
  induction b generalizing a with
  | nil => simp
  | cons p rest ih =>
    simp only [keys, List.map_cons, List.nodup_cons] at hb
    rw [List.foldl_cons, ih _ hb.2, dictGet_dictSet, dictGet_cons]
    by_cases hp : p.1 = g
    · have hzero : dictGet rest g = 0 := by
        refine dictGet_eq_zero_of_not_containsKey rest g ?_
        rcases Bool.eq_false_or_eq_true (containsKey rest g) with h | h
        · exact absurd (show p.1 ∈ List.map Prod.fst rest by
            rw [hp]; exact (containsKey_iff_mem rest g).mp h) hb.1
        · exact h
      rw [if_pos hp, if_pos hp, hzero, hp]
      omega
    · rw [if_neg hp, if_neg hp]

theorem containsKey_foldl_merge (b : Model) (a : Model) (g : Ngram) :
    containsKey (b.foldl (fun acc p => dictSet acc p.1 (dictGet acc p.1 + p.2)) a) g =
      (containsKey a g || containsKey b g) := by
  induction b generalizing a with
  | nil => simp
  | cons p rest ih =>
    rw [List.foldl_cons, ih, containsKey_dictSet, containsKey_cons]
    by_cases hp : p.1 = g
    · simp [hp]
    · simp [hp]

theorem nodup_keys_foldl_merge (b : Model) (a : Model)
    (h : (keys a).Nodup) :
    (keys (b.foldl (fun acc p => dictSet acc p.1 (dictGet acc p.1 + p.2)) a)).Nodup := by
  induction b generalizing a with
  | nil => exact h
  | cons p rest ih => exact ih _ (nodup_keys_dictSet _ _ _ h)

theorem dictGet_mergeModel (a b : Model) (g : Ngram) (hb : (keys b).Nodup) :
    dictGet (mergeModel a b) g = dictGet a g + dictGet b g :=
  dictGet_foldl_merge b a g hb

theorem containsKey_mergeModel (a b : Model) (g : Ngram) :
    containsKey (mergeModel a b) g = (containsKey a g || containsKey b g) :=
  containsKey_foldl_merge b a g

theorem nodup_keys_mergeModel (a b : Model) (h : (keys a).Nodup) :
    (keys (mergeModel a b)).Nodup :=
  nodup_keys_foldl_merge b a h

theorem dictGet_getModelFromFile_aux (terms : List (List Char)) (n : Nat)
    (m : Model) (g : Ngram) :
    dictGet (terms.foldl
      (fun nGrams term =>
        (getNGrams term n).foldl (fun acc x => dictSet acc x (dictGet acc x + 1)) nGrams)
      m) g =
      dictGet m g + (terms.map (fun t => (getNGrams t n).count g)).sum := by
  induction terms generalizing m with
  | nil => simp
  | cons t rest ih =>
    rw [List.foldl_cons, ih, dictGet_foldl_incr]
    simp only [List.map_cons, List.sum_cons]
    omega

theorem dictGet_getModelFromFile (terms : List (List Char)) (n : Nat) (g : Ngram) :
    dictGet (getModelFromFile terms n) g =
      (terms.map (fun t => (getNGrams t n).count g)).sum := by
  have h := dictGet_getModelFromFile_aux terms n [] g
  simpa [getModelFromFile] using h

theorem containsKey_getModelFromFile_aux (terms : List (List Char)) (n : Nat)
    (m : Model) (g : Ngram) :
    containsKey (terms.foldl
      (fun nGrams term =>
        (getNGrams term n).foldl (fun acc x => dictSet acc x (dictGet acc x + 1)) nGrams)
      m) g =
      (containsKey m g || terms.any (fun t => decide (g ∈ getNGrams t n))) := by
  induction terms generalizing m with
  | nil => simp
  | cons t rest ih =>
    rw [List.foldl_cons, ih, containsKey_foldl_incr]
    simp [Bool.or_assoc]

theorem nodup_keys_getModelFromFile_aux (terms : List (List Char)) (n : Nat)
    (m : Model) (h : (keys m).Nodup) :
    (keys (terms.foldl
      (fun nGrams term =>
        (getNGrams term n).foldl (fun acc x => dictSet acc x (dictGet acc x + 1)) nGrams)
      m)).Nodup := by
  induction terms generalizing m with
  | nil => exact h
  | cons t rest ih => exact ih _ (nodup_keys_foldl_incr _ _ h)

theorem nodup_keys_getModelFromFile (terms : List (List Char)) (n : Nat) :
    (keys (getModelFromFile terms n)).Nodup := by
  unfold getModelFromFile
  exact nodup_keys_getModelFromFile_aux terms n [] (by simp [keys])

theorem count_eq_ite_of_nodup (l : List Ngram) (g : Ngram) (hd : l.Nodup) :
    l.count g = if g ∈ l then 1 else 0 := by
  induction l with
  | nil => simp
  | cons x rest ih =>
    simp only [List.nodup_cons] at hd
    rw [List.count_cons, ih hd.2]
    by_cases hx : g = x
    · subst hx
      simp [hd.1]
    · have hx' : ¬ x = g := fun h => hx h.symm
      simp [hx, hx']

theorem natSum_pos_iff (l : List Nat) : 0 < l.sum ↔ ∃ x ∈ l, 0 < x := by
  induction l with
  | nil => simp
  | cons a rest ih =>
    simp only [List.sum_cons, List.mem_cons]
    constructor
    · intro h
      by_cases ha : 0 < a
      · exact ⟨a, Or.inl rfl, ha⟩
      · have hs : 0 < rest.sum := by omega
        obtain ⟨x, hx, hpos⟩ := ih.mp hs
        exact ⟨x, Or.inr hx, hpos⟩
    · rintro ⟨x, hx | hx, hpos⟩
      · subst hx
        omega
      · have hs : 0 < rest.sum := ih.mpr ⟨x, hx, hpos⟩
        omega

theorem mem_keys_getModelFromFile (terms : List (List Char)) (n : Nat) (g : Ngram) :
    g ∈ keys (getModelFromFile terms n) ↔
      0 < (terms.map (fun t => (getNGrams t n).count g)).sum := by
  rw [← containsKey_iff_mem, natSum_pos_iff]
  have h := containsKey_getModelFromFile_aux terms n [] g
  unfold getModelFromFile
  rw [h]
  simp only [containsKey_nil, Bool.false_or, List.any_eq_true, decide_eq_true_eq]
  constructor
  · rintro ⟨t, ht, hmem⟩
    exact ⟨(getNGrams t n).count g, List.mem_map_of_mem _ ht, List.count_pos_iff.mpr hmem⟩
  · rintro ⟨x, hx, hpos⟩
    obtain ⟨t, ht, rfl⟩ := List.mem_map.mp hx
    exact ⟨t, ht, List.count_pos_iff.mp hpos⟩

theorem dictGet_eq_zero_of_not_mem_keys (m : Model) (g : Ngram) (h : g ∉ keys m) :
    dictGet m g = 0 := by
  refine dictGet_eq_zero_of_not_containsKey m g ?_
  by_cases hc : containsKey m g = true
  · exact absurd ((containsKey_iff_mem m g).mp hc) h
  · simpa using hc

theorem sum_map_eq_sum_keysFinset (m : Model) (f : Ngram → Nat → Nat)
    (h : (keys m).Nodup) :
    (m.map (fun p => f p.1 p.2)).sum = ∑ g ∈ keysFinset m, f g (dictGet m g) := by
  induction m with
  | nil => simp [keysFinset, keys]
  | cons p rest ih =>
    simp only [keys, List.map_cons, List.nodup_cons] at h
    have hni : p.1 ∉ keysFinset rest := by
      simp only [keysFinset, List.mem_toFinset]
      exact h.1
    have hins : keysFinset (p :: rest) = insert p.1 (keysFinset rest) := by
      simp [keysFinset, keys]
    rw [List.map_cons, List.sum_cons, hins, Finset.sum_insert hni]
    congr 1
    · rw [dictGet_cons, if_pos rfl]
    · rw [ih h.2]
      refine Finset.sum_congr rfl ?_
      intro g hg
      rw [dictGet_cons, if_neg ?_]
      intro hpg
      exact hni (hpg ▸ hg)

theorem getCosSimNum_eq_spec (a b : Model) (ha : (keys a).Nodup) :
    getCosSimNum a b = specNum a b :=
  sum_map_eq_sum_keysFinset a (fun g v => v * dictGet b g) ha

theorem getCosSimDenom1_eq_spec (a : Model) (ha : (keys a).Nodup) :
    getCosSimDenom1 a = specDenom1 a :=
  sum_map_eq_sum_keysFinset a (fun _ v => v * v) ha

theorem keys_filter_not_contains (a m : Model) :
    keys (m.filter (fun p => !containsKey a p.1)) =
      (keys m).filter (fun g => !containsKey a g) := by
  induction m with
  | nil => rfl
  | cons p rest ih =>
    rcases Bool.eq_false_or_eq_true (!containsKey a p.1) with hq | hq
    · simp only [keys, List.map_cons] at ih ⊢
      simp [List.filter_cons, hq, ih]
    · simp only [keys, List.map_cons] at ih ⊢
      simp [List.filter_cons, hq, ih]

theorem dictGet_filter_not_contains (a m : Model) (g : Ngram)
    (hq : (!containsKey a g) = true) :
    dictGet (m.filter (fun p => !containsKey a p.1)) g = dictGet m g := by
  induction m with
  | nil => rfl
  | cons p rest ih =>
    by_cases hp : p.1 = g
    · simp [List.filter_cons, hp, hq, dictGet_cons]
    · rcases Bool.eq_false_or_eq_true (!containsKey a p.1) with hqp | hqp
      · simp [List.filter_cons, hqp, dictGet_cons, hp, ih]
      · simp [List.filter_cons, hqp, dictGet_cons, hp, ih]

theorem keysFinset_filter_not_contains (a b : Model) :
    keysFinset (b.filter (fun p => !containsKey a p.1)) =
      keysFinset b \ keysFinset a := by
  apply Finset.ext
  intro g
  simp only [keysFinset, List.mem_toFinset, Finset.mem_sdiff]
  rw [keys_filter_not_contains]
  simp only [List.mem_filter]
  constructor
  · rintro ⟨hbmem, hq⟩
    refine ⟨hbmem, ?_⟩
    intro hmemA
    rw [(containsKey_iff_mem a g).mpr hmemA] at hq
    simp at hq
  · rintro ⟨hbmem, hna⟩
    refine ⟨hbmem, ?_⟩
    by_cases hc : containsKey a g = true
    · exact absurd ((containsKey_iff_mem a g).mp hc) hna
    · simp only [Bool.not_eq_true] at hc
      simp [hc]

theorem getCosSimDenom2_eq_spec (a b : Model)
    (ha : (keys a).Nodup) (hb : (keys b).Nodup) :
    getCosSimDenom2 a b = specDenom2 a b := by
  have hbf : (keys (b.filter (fun p => !containsKey a p.1))).Nodup := by
    rw [keys_filter_not_contains]
    exact hb.filter _
  have h1 : (a.map (fun p => dictGet b p.1 * dictGet b p.1)).sum =
      ∑ g ∈ keysFinset a, dictGet b g * dictGet b g :=
    sum_map_eq_sum_keysFinset a (fun g _ => dictGet b g * dictGet b g) ha
  have h2 : ((b.filter (fun p => !containsKey a p.1)).map (fun p => p.2 * p.2)).sum =
      ∑ g ∈ keysFinset b \ keysFinset a, dictGet b g * dictGet b g := by
    rw [sum_map_eq_sum_keysFinset _ (fun _ v => v * v) hbf,
      keysFinset_filter_not_contains a b]
    refine Finset.sum_congr rfl ?_
    intro g hg
    have hq : (!containsKey a g) = true := by
      rcases Finset.mem_sdiff.mp hg with ⟨_, hna⟩
      by_cases hc : containsKey a g = true
      · exact absurd ((containsKey_iff_mem a g).mp hc)
          (by simpa [keysFinset, List.mem_toFinset] using hna)
      · simpa using hc
    rw [dictGet_filter_not_contains a b g hq]
  unfold getCosSimDenom2 specDenom2
  rw [h1, h2, ← Finset.union_sdiff_self_eq_union,
    Finset.sum_union Finset.disjoint_sdiff]

theorem specNum_eq_union (a b : Model) :
    specNum a b =
      ∑ g ∈ keysFinset a ∪ keysFinset b, dictGet a g * dictGet b g := by
  unfold specNum
  refine Finset.sum_subset Finset.subset_union_left ?_
  intro g _ hna
  rw [dictGet_eq_zero_of_not_mem_keys a g
    (by simpa [keysFinset, List.mem_toFinset] using hna)]
  simp

theorem specDenom1_eq_union (a b : Model) :
    specDenom1 a =
      ∑ g ∈ keysFinset a ∪ keysFinset b, dictGet a g * dictGet a g := by
  unfold specDenom1
  refine Finset.sum_subset Finset.subset_union_left ?_
  intro g _ hna
  rw [dictGet_eq_zero_of_not_mem_keys a g
    (by simpa [keysFinset, List.mem_toFinset] using hna)]
  simp

theorem specNum_symm (a b : Model) : specNum a b = specNum b a := by
  rw [specNum_eq_union, specNum_eq_union, Finset.union_comm]
  exact Finset.sum_congr rfl fun g _ => Nat.mul_comm _ _

theorem specDenom2_eq_specDenom1 (a b : Model) :
    specDenom2 a b = specDenom1 b := by
  unfold specDenom2 specDenom1
  refine (Finset.sum_subset Finset.subset_union_right ?_).symm
  intro g _ hnb
  rw [dictGet_eq_zero_of_not_mem_keys b g
    (by simpa [keysFinset, List.mem_toFinset] using hnb)]
  simp

/-- Claim C9: the count-summing merge `createModel` uses to aggregate
per-file models is commutative and associative on genuine dicts
(pairwise-distinct keys): either order of merging yields the same aggregate
mapping. -/
theorem c9_mergeModel_comm_assoc :
    (∀ a b : Model, (keys a).Nodup → (keys b).Nodup →
      ModelEquiv (mergeModel a b) (mergeModel b a)) ∧
    (∀ a b c : Model, (keys b).Nodup → (keys c).Nodup →
      ModelEquiv (mergeModel (mergeModel a b) c) (mergeModel a (mergeModel b c))) := by
  constructor
  · intro a b ha hb
    constructor
    · intro g
      rw [containsKey_mergeModel, containsKey_mergeModel, Bool.or_comm]
    · intro g
      rw [dictGet_mergeModel a b g hb, dictGet_mergeModel b a g ha, Nat.add_comm]
  · intro a b c hb hc
    constructor
    · intro g
      rw [containsKey_mergeModel, containsKey_mergeModel, containsKey_mergeModel,
        containsKey_mergeModel, Bool.or_assoc]
    · intro g
      rw [dictGet_mergeModel _ c g hc, dictGet_mergeModel a b g hb,
        dictGet_mergeModel a _ g (nodup_keys_mergeModel b c hb),
        dictGet_mergeModel b c g hc, Nat.add_assoc]

/-- Witness for C9 at concrete one-entry models. -/
theorem c9_mergeModel_comm_assoc_witness :
    ModelEquiv (mergeModel [(['a'], 1)] [(['b'], 2)])
      (mergeModel [(['b'], 2)] [(['a'], 1)]) ∧
    ModelEquiv
      (mergeModel (mergeModel [(['a'], 1)] [(['b'], 2)]) [(['a'], 3)])
      (mergeModel [(['a'], 1)] (mergeModel [(['b'], 2)] [(['a'], 3)])) :=
  ⟨c9_mergeModel_comm_assoc.1 [(['a'], 1)] [(['b'], 2)] (by decide) (by decide),
   c9_mergeModel_comm_assoc.2 [(['a'], 1)] [(['b'], 2)] [(['a'], 3)]
     (by decide) (by decide)⟩

/-- Claim C10: each file processed by `computeSimilarities` bumps the running
candidate model by exactly 1 per distinct n-gram occurring in the file (a key
of the file's model, i.e. an n-gram with positive occurrence count there),
whereas `getModelFromFile` counts every occurrence. -/
theorem c10_dfAdd_document_frequency (model : Model) (terms : List (List Char))
    (n : Nat) (g : Ngram) :
    dictGet (dfAdd model terms n) g =
      dictGet model g + (if g ∈ keys (getModelFromFile terms n) then 1 else 0) ∧
    (g ∈ keys (getModelFromFile terms n) ↔
      0 < (terms.map (fun t => (getNGrams t n).count g)).sum) ∧
    dictGet (getModelFromFile terms n) g =
      (terms.map (fun t => (getNGrams t n).count g)).sum := by
  refine ⟨?_, mem_keys_getModelFromFile terms n g, dictGet_getModelFromFile terms n g⟩
  unfold dfAdd
  rw [dictGet_foldl_incr,
    count_eq_ite_of_nodup _ g (nodup_keys_getModelFromFile terms n)]

/-- Claim C4: on genuine dicts (distinct keys), whenever the claimed formula
is defined (both denominator sums non-zero), `getCosSim(A, B)` returns
`N / (sqrt(D1) * sqrt(D2))` with `N` the sum of `A[g]*B[g]` over `A`'s keys
(`B[g] = 0` when absent), `D1` the sum of `A[g]^2` over `A`'s keys and `D2`
the sum of `B[g]^2` over the union of both key sets. -/
theorem c4_getCosSim_formula (a b : Model)
    (ha : (keys a).Nodup) (hb : (keys b).Nodup)
    (h1 : specDenom1 a ≠ 0) (h2 : specDenom2 a b ≠ 0) :
    getCosSim a b =
      Except.ok ((specNum a b : ℝ) /
        (Real.sqrt (specDenom1 a) * Real.sqrt (specDenom2 a b))) := by
  unfold getCosSim
  rw [getCosSimNum_eq_spec a b ha, getCosSimDenom1_eq_spec a ha,
    getCosSimDenom2_eq_spec a b ha hb]
  have hcond : ¬ (specDenom1 a = 0 ∨ specDenom2 a b = 0) := by
    rintro (h | h)
    · exact h1 h
    · exact h2 h
  rw [if_neg hcond]

/-- Witness for C4 at the one-entry models `{"a": 1}` and `{"ab": 2}`. -/
theorem c4_getCosSim_formula_witness :
    getCosSim [(['a'], 1)] [(['a', 'b'], 2)] =
      Except.ok ((specNum [(['a'], 1)] [(['a', 'b'], 2)] : ℝ) /
        (Real.sqrt (specDenom1 [(['a'], 1)]) *
          Real.sqrt (specDenom2 [(['a'], 1)] [(['a', 'b'], 2)]))) :=
  c4_getCosSim_formula [(['a'], 1)] [(['a', 'b'], 2)]
    (by decide) (by decide) (by decide) (by decide)

/-- Claim C5: any value `getCosSim` actually returns on genuine dicts lies in
the closed interval `[0, 1]`. -/
theorem c5_getCosSim_range (a b : Model)
    (ha : (keys a).Nodup) (hb : (keys b).Nodup)
    (x : ℝ) (hx : getCosSim a b = Except.ok x) : 0 ≤ x ∧ x ≤ 1 := by
  unfold getCosSim at hx
  by_cases hcond : getCosSimDenom1 a = 0 ∨ getCosSimDenom2 a b = 0
  · rw [if_pos hcond] at hx
    simp at hx
  · rw [if_neg hcond] at hx
    push_neg at hcond
    obtain ⟨h1, h2⟩ := hcond
    have hx' : x = (getCosSimNum a b : ℝ) /
        (Real.sqrt (getCosSimDenom1 a) * Real.sqrt (getCosSimDenom2 a b)) := by
      injection hx with h
      exact h.symm
    have hd1pos : (0 : ℝ) < (getCosSimDenom1 a : ℝ) := by
      exact_mod_cast Nat.pos_of_ne_zero h1
    have hd2pos : (0 : ℝ) < (getCosSimDenom2 a b : ℝ) := by
      exact_mod_cast Nat.pos_of_ne_zero h2
    have hdenpos : 0 < Real.sqrt (getCosSimDenom1 a) * Real.sqrt (getCosSimDenom2 a b) :=
      mul_pos (Real.sqrt_pos.mpr hd1pos) (Real.sqrt_pos.mpr hd2pos)
    have hN : (getCosSimNum a b : ℝ) =
        ∑ g ∈ keysFinset a ∪ keysFinset b, (dictGet a g : ℝ) * (dictGet b g : ℝ) := by
      rw [getCosSimNum_eq_spec a b ha, specNum_eq_union]
      push_cast
      rfl
    have hD1 : (getCosSimDenom1 a : ℝ) =
        ∑ g ∈ keysFinset a ∪ keysFinset b, (dictGet a g : ℝ) ^ 2 := by
      rw [getCosSimDenom1_eq_spec a ha, specDenom1_eq_union a b]
      push_cast
      refine Finset.sum_congr rfl fun g _ => ?_
      ring
    have hD2 : (getCosSimDenom2 a b : ℝ) =
        ∑ g ∈ keysFinset a ∪ keysFinset b, (dictGet b g : ℝ) ^ 2 := by
      rw [getCosSimDenom2_eq_spec a b ha hb]
      unfold specDenom2
      push_cast
      refine Finset.sum_congr rfl fun g _ => ?_
      ring
    have hNle : (getCosSimNum a b : ℝ) ≤
        Real.sqrt (getCosSimDenom1 a) * Real.sqrt (getCosSimDenom2 a b) := by
      rw [hN, hD1, hD2]
      exact Real.sum_mul_le_sqrt_mul_sqrt _ _ _
    constructor
    · rw [hx']
      exact div_nonneg (Nat.cast_nonneg _) (le_of_lt hdenpos)
    · rw [hx', div_le_one hdenpos]
      exact hNle

/-- Witness for C5 at the model `{"a": 1}` against itself. -/
theorem c5_getCosSim_range_witness :
    0 ≤ (getCosSimNum [(['a'], 1)] [(['a'], 1)] : ℝ) /
        (Real.sqrt (getCosSimDenom1 [(['a'], 1)]) *
          Real.sqrt (getCosSimDenom2 [(['a'], 1)] [(['a'], 1)])) ∧
      (getCosSimNum [(['a'], 1)] [(['a'], 1)] : ℝ) /
        (Real.sqrt (getCosSimDenom1 [(['a'], 1)]) *
          Real.sqrt (getCosSimDenom2 [(['a'], 1)] [(['a'], 1)])) ≤ 1 :=
  c5_getCosSim_range [(['a'], 1)] [(['a'], 1)] (by decide) (by decide) _
    (by unfold getCosSim; rw [if_neg (by decide)])

/-- Claim C8: `getCosSim` is symmetric on non-empty genuine dicts, despite
iterating asymmetrically (first loop over `model1`'s items, second over
`model2`'s keys not in `model1`). -/
theorem c8_getCosSim_symm (a b : Model) (hane : a ≠ []) (hbne : b ≠ [])
    (ha : (keys a).Nodup) (hb : (keys b).Nodup) :
    getCosSim a b = getCosSim b a := by
  have hnum : getCosSimNum a b = getCosSimNum b a := by
    rw [getCosSimNum_eq_spec a b ha, getCosSimNum_eq_spec b a hb, specNum_symm]
  have hd2 : getCosSimDenom2 a b = getCosSimDenom1 b := by
    rw [getCosSimDenom2_eq_spec a b ha hb, getCosSimDenom1_eq_spec b hb,
      specDenom2_eq_specDenom1]
  have hd2' : getCosSimDenom2 b a = getCosSimDenom1 a := by
    rw [getCosSimDenom2_eq_spec b a hb ha, getCosSimDenom1_eq_spec a ha,
      specDenom2_eq_specDenom1]
  unfold getCosSim
  rw [hnum, hd2, hd2']
  by_cases hza : getCosSimDenom1 a = 0
  · simp [hza]
  · by_cases hzb : getCosSimDenom1 b = 0
    · simp [hza, hzb]
    · rw [if_neg (by tauto), if_neg (by tauto), mul_comm]

/-- Witness for C8 at the models `{"a": 1}` and `{"b": 2}`. -/
theorem c8_getCosSim_symm_witness :
    getCosSim [(['a'], 1)] [(['b'], 2)] = getCosSim [(['b'], 2)] [(['a'], 1)] :=
  c8_getCosSim_symm [(['a'], 1)] [(['b'], 2)]
    (by decide) (by decide) (by decide) (by decide)

/-- Claim C1, behavior of the code at the failing input: with an empty model
on either side, `getCosSim` raises an uncaught `ZeroDivisionError`; it does
not signal the spec's `DegenerateModelError` and does not return 0. -/
theorem c1_getCosSim_empty_raises :
    getCosSim [] [(['a', 'b'], 1)] = Except.error PyError.zeroDivisionError ∧
    getCosSim [(['a', 'b'], 1)] [] = Except.error PyError.zeroDivisionError ∧
    getCosSim [] [(['a', 'b'], 1)] ≠ Except.error PyError.degenerateModelError ∧
    getCosSim [] [(['a', 'b'], 1)] ≠ Except.ok 0 := by
  have h1 : getCosSim [] [(['a', 'b'], 1)] = Except.error PyError.zeroDivisionError := by
    unfold getCosSim
    rw [if_pos (by decide)]
  have h2 : getCosSim [(['a', 'b'], 1)] [] = Except.error PyError.zeroDivisionError := by
    unfold getCosSim
    rw [if_pos (by decide)]
  refine ⟨h1, h2, ?_, ?_⟩
  · rw [h1]
    intro h
    injection h with h'
    exact absurd h' (by decide)
  · rw [h1]
    intro h
    exact Except.noConfusion h

/-- Counterexample to C3 as stated: at a path that is neither a file nor a
directory, `createModel` returns the empty model instead of failing with a
resource error. -/
theorem c3_counterexample :
    createModel emptyFS "missing.txt" 2 = Except.ok [] ∧
    createModel emptyFS "missing.txt" 2 ≠ Except.error PyError.resourceError := by
  have h : createModel emptyFS "missing.txt" 2 = Except.ok [] := rfl
  refine ⟨h, ?_⟩
  rw [h]
  intro hcontra
  exact Except.noConfusion hcontra

/-- Claim C3 amended: for a source path that is neither a directory nor a
file, `createModel` raises nothing and silently returns the empty model
(only reads of existing-but-unreadable or undecodable files can raise, and
those happen in the directory/file branches). -/
theorem c3_createModel_missing_path (fs : FileSystem) (src : String) (n : Nat)
    (hdir : fs.isDir src = false) (hfile : fs.isFile src = false) :
    createModel fs src n = Except.ok [] := by
  unfold createModel
  rw [hdir, hfile]
  simp
  rfl

/-- Witness for the amended C3 on the all-missing filesystem. -/
theorem c3_createModel_missing_path_witness :
    createModel emptyFS "missing.txt" 2 = Except.ok [] :=
  c3_createModel_missing_path emptyFS "missing.txt" 2 rfl rfl

theorem except_bind_ok {α β : Type} (a : α) (f : α → Except PyError β) :
    (Except.ok a >>= f) = f a := rfl

theorem except_pure_bind {α β : Type} (a : α) (f : α → Except PyError β) :
    ((pure a : Except PyError α) >>= f) = f a := rfl

theorem except_bind_error {α β : Type} (e : PyError) (f : α → Except PyError β) :
    ((Except.error e : Except PyError α) >>= f) = Except.error e := rfl

theorem except_bind_ok2 {α β : Type} (a : α) (f : α → Except PyError β) :
    (Except.ok a : Except PyError α).bind f = f a := rfl

theorem except_bind_error2 {α β : Type} (e : PyError) (f : α → Except PyError β) :
    (Except.error e : Except PyError α).bind f = Except.error e := rfl

theorem simStep_eq (ref : Model) (n : Nat) (m0 : Model) (out0 : List (String × ℝ))
    (f : String × List (List Char)) :
    simStep ref n (m0, out0) f =
      (getCosSim ref (dfAdd m0 f.2 n)).bind
        (fun s => Except.ok (dfAdd m0 f.2 n, out0 ++ [(f.1, s)])) := rfl

theorem simLoop_append (ref : Model) (n : Nat)
    (files : List (String × List (List Char)))
    (m0 : Model) (out0 : List (String × ℝ)) (mF : Model) (outF : List (String × ℝ))
    (h : files.foldlM (simStep ref n) (m0, out0) = Except.ok (mF, outF)) :
    ∃ tail, outF = out0 ++ tail := by
  induction files generalizing m0 out0 with
  | nil =>
    rw [List.foldlM_nil] at h
    injection h with h'
    injection h' with hm ho
    exact ⟨[], by rw [← ho]; simp⟩
  | cons f rest ih =>
    rw [List.foldlM_cons, simStep_eq] at h
    cases hg : getCosSim ref (dfAdd m0 f.2 n) with
    | error e =>
      rw [hg, except_bind_error2, except_bind_error] at h
      exact absurd h (by simp)
    | ok s =>
      rw [hg, except_bind_ok2, except_bind_ok] at h
      obtain ⟨tail, htail⟩ := ih _ _ h
      exact ⟨(f.1, s) :: tail, by rw [htail]; simp⟩

theorem simLoop_get (ref : Model) (n : Nat)
    (files : List (String × List (List Char)))
    (m0 : Model) (out0 : List (String × ℝ)) (mF : Model) (outF : List (String × ℝ))
    (h : files.foldlM (simStep ref n) (m0, out0) = Except.ok (mF, outF))
    (k : Nat) (hk : k < files.length) :
    outF.get? (out0.length + k) =
      (getCosSim ref
        ((files.take (k + 1)).foldl (fun m f => dfAdd m f.2 n) m0)).toOption.map
        (fun s => ((files.get ⟨k, hk⟩).1, s)) := by
  induction files generalizing m0 out0 k with
  | nil => exact absurd hk (by simp)
  | cons f rest ih =>
    rw [List.foldlM_cons, simStep_eq] at h
    cases hg : getCosSim ref (dfAdd m0 f.2 n) with
    | error e =>
      rw [hg, except_bind_error2, except_bind_error] at h
      exact absurd h (by simp)
    | ok s =>
      rw [hg, except_bind_ok2, except_bind_ok] at h
      cases k with
      | zero =>
        obtain ⟨tail, htail⟩ := simLoop_append ref n rest _ _ _ _ h
        rw [htail, Nat.add_zero, List.append_assoc,
          List.get?_append_right (Nat.le_refl _)]
        simp only [Nat.sub_self, List.singleton_append, List.get?_cons_zero]
        simp only [List.take_succ_cons, List.take_zero, List.foldl_cons,
          List.foldl_nil, List.get, hg, Except.toOption]
        rfl
      | succ k' =>
        have hk' : k' < rest.length := by
          simpa using hk
        have hres := ih _ _ h k' hk'
        have hidx : out0.length + (k' + 1) = (out0 ++ [(f.1, s)]).length + k' := by
          simp [List.length_append]
          omega
        rw [hidx, hres]
        simp only [List.take_succ_cons, List.foldl_cons, List.get_cons_succ]

/-- Claim C2 amended: when scoring a directory corpus, the k-th score written
is the cosine similarity between the reference model and the cumulative
candidate model over files 1..k — cumulative in the document-frequency
sense: each file contributes 1 per distinct n-gram it contains (`dfAdd`),
not the builder's count-summing merge, and not an isolated model of the
k-th file alone. -/
theorem c2_cumulative_score (ref : Model) (files : List (String × List (List Char)))
    (n : Nat) (lines : List (String × ℝ))
    (h : computeSimilarities ref files n = Except.ok lines)
    (k : Nat) (hk : k < files.length) :
    lines.get? k =
      (getCosSim ref (cumDFModel (files.take (k + 1)) n)).toOption.map
        (fun s => ((files.get ⟨k, hk⟩).1, s)) := by
  unfold computeSimilarities at h
  cases hfold : files.foldlM (simStep ref n) (([] : Model), ([] : List (String × ℝ))) with
  | error e =>
    rw [hfold] at h
    simp [Except.map] at h
  | ok p =>
    obtain ⟨mF, outF⟩ := p
    rw [hfold] at h
    simp only [Except.map] at h
    injection h with h'
    have hres := simLoop_get ref n files [] [] mF outF hfold k hk
    simpa [cumDFModel, ← h'] using hres

/-- Counterexample to C2 as stated: over the single file `"f1"` with terms
`["aab"]` at `n = 1`, the written score is `1 / (sqrt 1 * sqrt 2)` (from the
document-frequency model `{a: 1, b: 1}`), while the builder's count-summing
merge over the same file gives `{a: 2, b: 1}`, whose similarity to the
reference `{a: 1}` is the different value `2 / (sqrt 1 * sqrt 5)`. -/
theorem c2_counterexample :
    computeSimilarities [(['a'], 1)] [("f1", [['a', 'a', 'b']])] 1 =
      Except.ok [("f1", (1 : ℝ) / (Real.sqrt 1 * Real.sqrt 2))] ∧
    getCosSim [(['a'], 1)] (builderAggregate [("f1", [['a', 'a', 'b']])] 1) =
      Except.ok ((2 : ℝ) / (Real.sqrt 1 * Real.sqrt 5)) ∧
    (1 : ℝ) / (Real.sqrt 1 * Real.sqrt 2) ≠ (2 : ℝ) / (Real.sqrt 1 * Real.sqrt 5) := by
  have hcand : dfAdd ([] : Model) [['a', 'a', 'b']] 1 = [(['a'], 1), (['b'], 1)] := by
    rfl
  have hsim1 : getCosSim [(['a'], 1)] [(['a'], 1), (['b'], 1)] =
      Except.ok ((1 : ℝ) / (Real.sqrt 1 * Real.sqrt 2)) := by
    have hn : getCosSimNum [(['a'], 1)] [(['a'], 1), (['b'], 1)] = 1 := by decide
    have hd1 : getCosSimDenom1 [(['a'], 1)] = 1 := by decide
    have hd2 : getCosSimDenom2 [(['a'], 1)] [(['a'], 1), (['b'], 1)] = 2 := by decide
    unfold getCosSim
    simp only [hn, hd1, hd2]
    rw [if_neg (by norm_num)]
    norm_num
  have hagg : builderAggregate [("f1", [['a', 'a', 'b']])] 1 =
      [(['a'], 2), (['b'], 1)] := by
    rfl
  have hsim2 : getCosSim [(['a'], 1)] [(['a'], 2), (['b'], 1)] =
      Except.ok ((2 : ℝ) / (Real.sqrt 1 * Real.sqrt 5)) := by
    have hn : getCosSimNum [(['a'], 1)] [(['a'], 2), (['b'], 1)] = 2 := by decide
    have hd1 : getCosSimDenom1 [(['a'], 1)] = 1 := by decide
    have hd2 : getCosSimDenom2 [(['a'], 1)] [(['a'], 2), (['b'], 1)] = 5 := by decide
    unfold getCosSim
    simp only [hn, hd1, hd2]
    rw [if_neg (by norm_num)]
    norm_num
  have hcomp : computeSimilarities [(['a'], 1)] [("f1", [['a', 'a', 'b']])] 1 =
      Except.ok [("f1", (1 : ℝ) / (Real.sqrt 1 * Real.sqrt 2))] := by
    unfold computeSimilarities
    rw [List.foldlM_cons, simStep_eq, hcand, hsim1, except_bind_ok2, except_bind_ok,
      List.foldlM_nil]
    rfl
  have hne : (1 : ℝ) / (Real.sqrt 1 * Real.sqrt 2) ≠
      (2 : ℝ) / (Real.sqrt 1 * Real.sqrt 5) := by
    rw [Real.sqrt_one, one_mul, one_mul]
    intro heq
    have hsq : ((1 : ℝ) / Real.sqrt 2) ^ 2 = ((2 : ℝ) / Real.sqrt 5) ^ 2 := by
      rw [heq]
    rw [div_pow, div_pow, Real.sq_sqrt (by norm_num : (0 : ℝ) ≤ 2),
      Real.sq_sqrt (by norm_num : (0 : ℝ) ≤ 5)] at hsq
    norm_num at hsq
  refine ⟨hcomp, ?_, hne⟩
  rw [hagg]
  exact hsim2

/-- Witness for the amended C2 on a one-file corpus. -/
theorem c2_cumulative_score_witness :
    ([(("f" : String), (1 : ℝ) / (Real.sqrt 1 * Real.sqrt 1))]).get? 0 =
      (getCosSim [(['a'], 1)]
        (cumDFModel (([(("f" : String), [['a']])]).take (0 + 1)) 1)).toOption.map
        (fun s => ((([(("f" : String), [['a']])]).get ⟨0, by decide⟩).1, s)) := by
  have hcand : dfAdd ([] : Model) [['a']] 1 = [(['a'], 1)] := by rfl
  have hsim : getCosSim [(['a'], 1)] [(['a'], 1)] =
      Except.ok ((1 : ℝ) / (Real.sqrt 1 * Real.sqrt 1)) := by
    have hn : getCosSimNum [(['a'], 1)] [(['a'], 1)] = 1 := by decide
    have hd1 : getCosSimDenom1 [(['a'], 1)] = 1 := by decide
    have hd2 : getCosSimDenom2 [(['a'], 1)] [(['a'], 1)] = 1 := by decide
    unfold getCosSim
    simp only [hn, hd1, hd2]
    rw [if_neg (by norm_num)]
    norm_num
  have hcomp : computeSimilarities [(['a'], 1)] [("f", [['a']])] 1 =
      Except.ok [("f", (1 : ℝ) / (Real.sqrt 1 * Real.sqrt 1))] := by
    unfold computeSimilarities
    rw [List.foldlM_cons, simStep_eq, hcand, hsim, except_bind_ok2, except_bind_ok,
      List.foldlM_nil]
    rfl
  exact c2_cumulative_score [(['a'], 1)] [("f", [['a']])] 1
    [("f", (1 : ℝ) / (Real.sqrt 1 * Real.sqrt 1))] hcomp 0 (by decide)

end LangGuess
